import Mathlib

/-!
Shallow embedding of the response-parsing core of `commander`.

The embedded code:
* `ResponseParser.parse_response` (src/commander.py), a line-by-line state
  machine extracting `---path---` / fenced blocks from an LLM response;
* `ResponseParser1.parse_response` (src/commander.py), the parser copy kept
  alongside the active one;
* the per-file wire format emitted by `BaseLLM.create_prompt`
  (src/comutl/base_llm.py).

Python strings become Lean `String`s; Python `str.split('\n')`,
`str.strip()`, `str.startswith`/`str.endswith` and the slice `[3:-3]` are
modelled character-list-wise below; Python `dict` (insertion-ordered,
value overwritten in place on key collision) becomes an association list
with `dictInsert`.
-/

namespace Commander

/-- Whitespace class stripped by Python `str.strip()` (ASCII part). -/
def isWs (c : Char) : Bool :=
  c = ' ' || c = '\t' || c = '\n' || c = '\r' || c = '\x0b' || c = '\x0c'

/-- Python `str.strip()` on a character list. -/
def stripL (l : List Char) : List Char :=
  ((l.dropWhile isWs).reverse.dropWhile isWs).reverse

/-- Python `line.strip()`. -/
def pyStrip (s : String) : String := ⟨stripL s.data⟩

/-- Python `response.split('\n')` on a character list. -/
def splitNlL : List Char → List (List Char)
  | [] => [[]]
  | c :: cs =>
    if c = '\n' then [] :: splitNlL cs
    else
      match splitNlL cs with
      | [] => [[c]]
      | h :: t => (c :: h) :: t

/-- Python `response.split('\n')`. -/
def splitNlLines (s : String) : List String := (splitNlL s.data).map fun l => ⟨l⟩

/-- Python `'\n'.join(...)` on character lists. -/
def joinNlL : List (List Char) → List Char
  | [] => []
  | [l] => l
  | l :: ls => l ++ '\n' :: joinNlL ls

/-- Python `'\n'.join(file_content)`. -/
def joinNl (ls : List String) : String := ⟨joinNlL (ls.map String.data)⟩

/-- Python `s.startswith(t)`. -/
def startsW (s t : String) : Bool := s.data.take t.data.length == t.data

/-- Python `s.endswith(t)`. -/
def endsW (s t : String) : Bool :=
  s.data.reverse.take t.data.length == t.data.reverse

/-- The marker test of `parse_response`:
`line_stripped.startswith('---') and line_stripped.endswith('---')`. -/
def markerB (s : String) : Bool := startsW s "---" && endsW s "---"

/-- The Marker Line test as the spec defines it (section 3): the stripped
line starts and ends with `---` and is at least 6 characters long. The
code's own test `markerB` omits the length condition; this definition
follows the spec's words so that claims phrased with the spec's notion of
a Marker Line can be stated against the code. -/
def specMarkerLineB (s : String) : Bool :=
  markerB s && decide (6 ≤ s.data.length)

/-- Python slice `[3:-3]` on a character list. -/
def chop3L (l : List Char) : List Char := ((l.drop 3).reverse.drop 3).reverse

/-- Python `line_stripped[3:-3]`, the filespec extraction. -/
def pyChop (s : String) : String := ⟨chop3L s.data⟩

/-- Python `dict.__setitem__`: an existing key keeps its position and gets
the new value, a new key is appended at the end. -/
def dictInsert (d : List (String × String)) (k v : String) :
    List (String × String) :=
  if d.any fun e => e.1 == k then
    d.map fun e => if e.1 == k then (k, v) else e
  else d ++ [(k, v)]

/-- The lookahead of the closing-fence branch of `parse_response`
(`next_line_is_new_file_or_eof`), applied to the lines after the fence. -/
def isClose : List String → Bool
  | [] => true
  | next :: rest2 =>
    if markerB (pyStrip next) then true
    else if pyStrip next = "" then
      match rest2 with
      | [] => true
      | nn :: _ => markerB (pyStrip nn)
    else false

/-- Loop state of `ResponseParser.parse_response`: scanning with
`current_file is None`; just after a marker line, about to skip the
opening-fence line; or inside a block with `current_file`/`file_content`
(the accumulator is kept reversed). -/
inductive PState where
  | scanning : PState
  | skipFence : String → PState
  | inBlock : String → List String → PState

/-- End-of-input handling of `parse_response`: a still-open block is
finalized with the accumulated content. -/
def finalizeSt : PState → List (String × String) → List (String × String)
  | .scanning, d => d
  | .skipFence p, d => dictInsert d p (joinNl [])
  | .inBlock p acc, d => dictInsert d p (joinNl acc.reverse)

/-- The `while i < len(lines)` loop of `ResponseParser.parse_response`. -/
def runParser : List String → PState → List (String × String) →
    List (String × String)
  | [], st, d => finalizeSt st d
  | line :: rest, .scanning, d =>
    if markerB (pyStrip line) then
      runParser rest (.skipFence (pyChop (pyStrip line))) d
    else runParser rest .scanning d
  | _ :: rest, .skipFence p, d => runParser rest (.inBlock p []) d
  | line :: rest, .inBlock p acc, d =>
    if pyStrip line = "```" then
      if isClose rest then
        runParser rest .scanning (dictInsert d p (joinNl acc.reverse))
      else runParser rest (.inBlock p (line :: acc)) d
    else runParser rest (.inBlock p (line :: acc)) d

/-- `ResponseParser.parse_response`: split into lines, possibly skip a
leading ```tool_code sentinel line, then run the loop. -/
def parse_response (response : String) : List (String × String) :=
  match splitNlLines response with
  | [] => []
  | l :: rest =>
    if pyStrip l = "```tool_code" then runParser rest .scanning []
    else runParser (l :: rest) .scanning []

/-- Loop state of `ResponseParser1.parse_response`. The marker branch of
that copy lacks the `continue` statement, so after a marker line the loop
advances past the opening-fence line and one further line before content
collection starts; `skipA`/`skipB` are those two blind skips. -/
inductive PState1 where
  | scanning : PState1
  | skipA : String → PState1
  | skipB : String → PState1
  | inBlock : String → List String → PState1

/-- End-of-input handling of `ResponseParser1.parse_response`. -/
def finalize1 : PState1 → List (String × String) → List (String × String)
  | .scanning, d => d
  | .skipA p, d => dictInsert d p (joinNl [])
  | .skipB p, d => dictInsert d p (joinNl [])
  | .inBlock p acc, d => dictInsert d p (joinNl acc.reverse)

/-- The `while i < len(lines)` loop of `ResponseParser1.parse_response`. -/
def runParser1 : List String → PState1 → List (String × String) →
    List (String × String)
  | [], st, d => finalize1 st d
  | line :: rest, .scanning, d =>
    if markerB (pyStrip line) then
      runParser1 rest (.skipA (pyChop (pyStrip line))) d
    else runParser1 rest .scanning d
  | _ :: rest, .skipA p, d => runParser1 rest (.skipB p) d
  | _ :: rest, .skipB p, d => runParser1 rest (.inBlock p []) d
  | line :: rest, .inBlock p acc, d =>
    if pyStrip line = "```" then
      if isClose rest then
        runParser1 rest .scanning (dictInsert d p (joinNl acc.reverse))
      else runParser1 rest (.inBlock p (line :: acc)) d
    else runParser1 rest (.inBlock p (line :: acc)) d

/-- `ResponseParser1.parse_response`. -/
def parse_response1 (response : String) : List (String × String) :=
  match splitNlLines response with
  | [] => []
  | l :: rest =>
    if pyStrip l = "```tool_code" then runParser1 rest .scanning []
    else runParser1 (l :: rest) .scanning []

/-- The per-file fragment `BaseLLM.create_prompt` appends for a
`(filename, (content, language))` entry:
`f"\n---{filename}---\n```{language}\n{content}\n```\n"` (with empty
`language` this is literally the `else`-branch string as well). -/
def renderBlock (p lang c : String) : String :=
  "\n---" ++ p ++ "---\n```" ++ lang ++ "\n" ++ c ++ "\n```\n"

/-- Concatenation of the per-file fragments (the `prompt +=` loop of
`create_prompt`): the wire format of a whole response, one
`(path, language, content)` triple per block. -/
def renderBlocks : List (String × String × String) → String
  | [] => ""
  | b :: t => renderBlock b.1 b.2.1 b.2.2 ++ renderBlocks t

/-- A path or language tag that stays on its own line. -/
def noNlB (s : String) : Bool := !(s.data.contains '\n')

/-- Whether the genuine-close lookahead of `parse_response` would fire for
a fence line whose following lines, within the block's content, are the
given list: the next content line strips to a marker, or strips to empty
and is itself followed within the content by a marker-stripping line.
When the remaining content is empty, or an empty-stripping next line ends
the content, the lookahead sees the block's real closing fence next in the
rendered stream and does not fire. -/
def fenceTrip : List String → Bool
  | [] => false
  | b :: t =>
    if markerB (pyStrip b) then true
    else if pyStrip b = "" then
      match t with
      | [] => false
      | c :: _ => markerB (pyStrip c)
    else false

/-- Safety of a block's content lines for the round trip: no content line
that strips to the bare fence satisfies the genuine-close lookahead within
the content (`fenceTrip` of its following content lines). -/
def safeLinesB : List String → Bool
  | [] => true
  | a :: t => (!(pyStrip a == "```") || !fenceTrip t) && safeLinesB t

/-- Lines of one rendered block, as `parse_response` will see them after
splitting: the leading empty line from the fragment's leading newline, the
marker line, the opening fence line, the content lines, the closing fence. -/
def blockLines (b : String × String × String) : List String :=
  "" :: ("---" ++ b.1 ++ "---") :: ("```" ++ b.2.1) ::
    (splitNlLines b.2.2 ++ ["```"])

/-- All lines of a rendered response (a trailing empty line comes from the
final fragment's trailing newline). -/
def renderLinesAll (L : List (String × String × String)) : List String :=
  (L.map blockLines).flatten ++ [""]

/-- The mapping the parser builds from a block list: Python dict insertion
of each `(path, content)` pair in order. -/
def foldIns (d : List (String × String)) (L : List (String × String × String)) :
    List (String × String) :=
  L.foldl (fun d b => dictInsert d b.1 b.2.2) d

theorem splitNlL_ne_nil (l : List Char) : splitNlL l ≠ [] := by
  induction l with
  | nil => simp [splitNlL]
  | cons c cs ih =>
    simp only [splitNlL]
    split
    · simp
    · cases h : splitNlL cs <;> simp

theorem mem_splitNlL_noNl (l : List Char) :
    ∀ part ∈ splitNlL l, '\n' ∉ part := by
  induction l with
  | nil => intro part hp; simp [splitNlL] at hp; simp [hp]
  | cons c cs ih =>
    intro part hp
    simp only [splitNlL] at hp
    split at hp
    · rcases List.mem_cons.mp hp with h | h
      · simp [h]
      · exact ih part h
    · rename_i hc
      cases hsp : splitNlL cs with
      | nil => exact absurd hsp (splitNlL_ne_nil cs)
      | cons h t =>
        rw [hsp] at hp
        rcases List.mem_cons.mp hp with h1 | h1
        · subst h1
          have hh : '\n' ∉ h := ih h (hsp ▸ List.mem_cons_self h t)
          simp [List.mem_cons, hh]
          exact fun hx => hc hx.symm
        · exact ih part (hsp ▸ List.mem_cons_of_mem h h1)

theorem joinNlL_cons (l : List Char) (ls : List (List Char)) (h : ls ≠ []) :
    joinNlL (l :: ls) = l ++ '\n' :: joinNlL ls := by
  cases ls with
  | nil => exact absurd rfl h
  | cons a t => rfl

theorem joinNlL_splitNlL (l : List Char) : joinNlL (splitNlL l) = l := by
  induction l with
  | nil => rfl
  | cons c cs ih =>
    simp only [splitNlL]
    split
    · rename_i hc
      rw [joinNlL_cons _ _ (splitNlL_ne_nil cs), ih, hc]
      rfl
    · rename_i hc
      cases hsp : splitNlL cs with
      | nil => exact absurd hsp (splitNlL_ne_nil cs)
      | cons h t =>
        rw [hsp] at ih
        cases t with
        | nil => simpa [joinNlL] using congrArg (c :: ·) ih
        | cons b t2 =>
          rw [joinNlL_cons _ _ (by simp)] at ih ⊢
          simpa using congrArg (c :: ·) ih

theorem splitNlL_of_noNl (l : List Char) (h : '\n' ∉ l) : splitNlL l = [l] := by
  induction l with
  | nil => rfl
  | cons c cs ih =>
    simp only [List.mem_cons, not_or] at h
    have hcne : ¬(c = '\n') := fun hc => h.1 hc.symm
    simp only [splitNlL, if_neg hcne, ih h.2]

theorem splitNlL_append (a rest : List Char) (h : '\n' ∉ a) :
    splitNlL (a ++ '\n' :: rest) = a :: splitNlL rest := by
  induction a with
  | nil => simp [splitNlL]
  | cons c cs ih =>
    simp only [List.mem_cons, not_or] at h
    have hcne : ¬(c = '\n') := fun hc => h.1 hc.symm
    rw [List.cons_append]
    simp only [splitNlL, if_neg hcne, ih h.2]

theorem splitNlL_joinNlL (parts : List (List Char)) (hne : parts ≠ [])
    (h : ∀ p ∈ parts, '\n' ∉ p) : splitNlL (joinNlL parts) = parts := by
  induction parts with
  | nil => exact absurd rfl hne
  | cons p t ih =>
    cases t with
    | nil => exact splitNlL_of_noNl p (h p (by simp))
    | cons q t2 =>
      rw [joinNlL_cons _ _ (by simp), splitNlL_append _ _ (h p (by simp)),
        ih (by simp) (fun x hx => h x (List.mem_cons_of_mem p hx))]

theorem joinNlL_append (A R : List (List Char)) (hA : A ≠ []) (hR : R ≠ []) :
    joinNlL (A ++ R) = joinNlL A ++ '\n' :: joinNlL R := by
  induction A with
  | nil => exact absurd rfl hA
  | cons a t ih =>
    cases t with
    | nil => rw [List.singleton_append, joinNlL_cons a R hR]; rfl
    | cons b t2 =>
      rw [List.cons_append, joinNlL_cons _ _ (by simp),
        joinNlL_cons _ _ (by simp), ih (by simp)]
      simp

theorem data_joinNl (ls : List String) :
    (joinNl ls).data = joinNlL (ls.map String.data) := rfl

theorem data_mk (l : List Char) : (⟨l⟩ : String).data = l := rfl

theorem map_data_splitNlLines (s : String) :
    (splitNlLines s).map String.data = splitNlL s.data := by
  unfold splitNlLines
  induction splitNlL s.data with
  | nil => rfl
  | cons h t ih =>
    simp only [List.map_cons] at ih ⊢
    exact congrArg (List.cons h) ih

theorem joinNl_splitNlLines (s : String) : joinNl (splitNlLines s) = s := by
  apply String.ext
  rw [data_joinNl, map_data_splitNlLines, joinNlL_splitNlL]

theorem data_markerLine (p : String) :
    ("---" ++ p ++ "---").data = ['-', '-', '-'] ++ p.data ++ ['-', '-', '-'] := by
  simp only [String.data_append]

theorem dropWhile_isWs_dash (l : List Char) :
    List.dropWhile isWs ('-' :: l) = '-' :: l := by
  rw [List.dropWhile_cons]
  simp [isWs]

theorem stripL_dash_dash (p : List Char) :
    stripL ('-' :: (p ++ ['-'])) = '-' :: (p ++ ['-']) := by
  unfold stripL
  rw [dropWhile_isWs_dash]
  have h2 : ('-' :: (p ++ ['-'])).reverse = '-' :: (p.reverse ++ ['-']) := by
    simp
  rw [h2, dropWhile_isWs_dash, ← h2, List.reverse_reverse]

theorem stripL_marker (p : List Char) :
    stripL (['-', '-', '-'] ++ p ++ ['-', '-', '-'])
      = ['-', '-', '-'] ++ p ++ ['-', '-', '-'] := by
  have h : (['-', '-', '-'] ++ p ++ ['-', '-', '-'] : List Char)
      = '-' :: ((['-', '-'] ++ p ++ ['-', '-']) ++ ['-']) := by simp
  rw [h, stripL_dash_dash]

theorem pyStrip_markerLine (p : String) :
    pyStrip ("---" ++ p ++ "---") = "---" ++ p ++ "---" := by
  apply String.ext
  show stripL ("---" ++ p ++ "---").data = _
  rw [data_markerLine, stripL_marker, ← data_markerLine]

theorem markerB_markerLine (p : String) :
    markerB ("---" ++ p ++ "---") = true := by
  simp only [markerB, startsW, endsW, data_markerLine, Bool.and_eq_true,
    beq_iff_eq]
  constructor
  · rfl
  · simp [List.reverse_append]

theorem pyChop_markerLine (p : String) :
    pyChop ("---" ++ p ++ "---") = p := by
  apply String.ext
  show chop3L ("---" ++ p ++ "---").data = _
  rw [data_markerLine]
  unfold chop3L
  have h1 : ((['-', '-', '-'] ++ p.data ++ ['-', '-', '-']).drop 3)
      = p.data ++ ['-', '-', '-'] := by simp
  rw [h1]
  have h2 : ((p.data ++ ['-', '-', '-']).reverse)
      = '-' :: '-' :: '-' :: p.data.reverse := by simp
  rw [h2]
  simp

theorem isClose_fence_head (t : List String) : isClose ("```" :: t) = false := by
  have h1 : markerB (pyStrip "```") = false := by decide
  have h2 : ¬(pyStrip "```" = "") := by decide
  simp [isClose, h1, h2]

theorem isClose_of_head (n : String) (t : List String) (h1 : pyStrip n ≠ "")
    (h2 : markerB (pyStrip n) = false) : isClose (n :: t) = false := by
  simp [isClose, h1, h2]

theorem isClose_append_not_fenceTrip (cl : List String) (tail : List String)
    (h : fenceTrip cl = false) :
    isClose (cl ++ "```" :: tail) = false := by
  cases cl with
  | nil => rw [List.nil_append]; exact isClose_fence_head tail
  | cons b t2 =>
    rw [List.cons_append]
    simp only [isClose]
    simp only [fenceTrip] at h
    by_cases hm : markerB (pyStrip b) = true
    · rw [if_pos hm] at h
      exact absurd h (by simp)
    · rw [if_neg hm] at h ⊢
      by_cases he : pyStrip b = ""
      · rw [if_pos he] at h ⊢
        cases t2 with
        | nil =>
          show markerB (pyStrip "```") = false
          decide
        | cons c t3 =>
          show markerB (pyStrip c) = false
          exact h
      · rw [if_neg he]

theorem run_content (cl : List String) : ∀ (acc : List String) (p : String)
    (d : List (String × String)) (tail : List String),
    safeLinesB cl = true → isClose tail = true →
    runParser (cl ++ "```" :: tail) (.inBlock p acc) d
      = runParser tail .scanning (dictInsert d p (joinNl (acc.reverse ++ cl))) := by
  induction cl with
  | nil =>
    intro acc p d tail _ hc
    rw [List.nil_append]
    simp only [runParser]
    rw [if_pos (show pyStrip "```" = "```" by decide), hc]
    simp
  | cons l cl' ih =>
    intro acc p d tail hs hc
    simp only [safeLinesB, Bool.and_eq_true] at hs
    obtain ⟨hs1, hs2⟩ := hs
    have hstep : runParser ((l :: cl') ++ "```" :: tail) (.inBlock p acc) d
        = runParser (cl' ++ "```" :: tail) (.inBlock p (l :: acc)) d := by
      rw [List.cons_append]
      by_cases hf : pyStrip l = "```"
      · have hft : fenceTrip cl' = false := by
          simp only [hf, beq_self_eq_true, Bool.not_true, Bool.false_or,
            Bool.not_eq_true'] at hs1
          exact hs1
        have hcl := isClose_append_not_fenceTrip cl' tail hft
        simp only [runParser]
        rw [if_pos hf, hcl]
        simp
      · simp only [runParser]
        rw [if_neg hf]
    rw [hstep, ih (l :: acc) p d tail hs2 hc]
    have hacc : (l :: acc).reverse ++ cl' = acc.reverse ++ l :: cl' := by simp
    rw [hacc]

theorem isClose_renderTail (L : List (String × String × String)) :
    isClose (renderLinesAll L) = true := by
  cases L with
  | nil => decide
  | cons b L' =>
    have hshape : renderLinesAll (b :: L')
        = "" :: ("---" ++ b.1 ++ "---") :: ("```" ++ b.2.1) ::
            ((splitNlLines b.2.2 ++ ["```"]) ++ renderLinesAll L') := by
      simp [renderLinesAll, blockLines, List.append_assoc]
    rw [hshape]
    have h1 : markerB (pyStrip "") = false := by decide
    have h2 : pyStrip "" = "" := by decide
    simp only [isClose, h1, h2, if_false, if_pos rfl]
    rw [pyStrip_markerLine, markerB_markerLine]
    simp

theorem run_blocks (L : List (String × String × String)) : ∀ d,
    (∀ b ∈ L, safeLinesB (splitNlLines b.2.2) = true) →
    runParser (renderLinesAll L) .scanning d = foldIns d L := by
  induction L with
  | nil =>
    intro d _
    show runParser [""] .scanning d = d
    simp only [runParser]
    rw [if_neg (show ¬(markerB (pyStrip "") = true) by decide)]
    rfl
  | cons b L' ih =>
    intro d hsafe
    have hshape : renderLinesAll (b :: L')
        = "" :: ("---" ++ b.1 ++ "---") :: ("```" ++ b.2.1) ::
            ((splitNlLines b.2.2 ++ ["```"]) ++ renderLinesAll L') := by
      simp [renderLinesAll, blockLines, List.append_assoc]
    rw [hshape]
    simp only [runParser]
    rw [if_neg (show ¬(markerB (pyStrip "") = true) by decide)]
    rw [pyStrip_markerLine, if_pos (markerB_markerLine b.1), pyChop_markerLine]
    rw [List.append_assoc, List.singleton_append]
    rw [run_content _ [] b.1 d _ (hsafe b (by simp)) (isClose_renderTail L')]
    rw [ih _ (fun x hx => hsafe x (List.mem_cons_of_mem b hx))]
    simp only [List.reverse_nil, List.nil_append, joinNl_splitNlLines]
    rfl

theorem data_renderBlock (p lang c : String) :
    (renderBlock p lang c).data
      = '\n' :: (("---" ++ p ++ "---").data
          ++ '\n' :: (("```" ++ lang).data
          ++ '\n' :: (c.data ++ '\n' :: (("```" : String).data ++ ['\n'])))) := by
  simp only [renderBlock, String.data_append]
  have e1 : ("\n---" : String).data = ['\n', '-', '-', '-'] := rfl
  have e2 : ("---\n```" : String).data = ['-', '-', '-', '\n', '`', '`', '`'] := rfl
  have e3 : ("\n" : String).data = ['\n'] := rfl
  have e4 : ("\n```\n" : String).data = ['\n', '`', '`', '`', '\n'] := rfl
  have e5 : ("```" : String).data = ['`', '`', '`'] := rfl
  simp [e1, e2, e3, e4, e5, List.append_assoc]

theorem map_data_renderLinesAll_ne_nil (L : List (String × String × String)) :
    (renderLinesAll L).map String.data ≠ [] := by
  simp [renderLinesAll]

theorem data_renderBlocks (L : List (String × String × String)) :
    (renderBlocks L).data = joinNlL ((renderLinesAll L).map String.data) := by
  induction L with
  | nil => rfl
  | cons b L' ih =>
    have hR : (renderLinesAll (b :: L')).map String.data
        = ([] :: ("---" ++ b.1 ++ "---").data :: ("```" ++ b.2.1).data ::
            ((splitNlLines b.2.2).map String.data ++ [("```" : String).data]))
          ++ (renderLinesAll L').map String.data := by
      simp [renderLinesAll, blockLines, List.append_assoc]
    rw [hR, joinNlL_append _ _ (by simp) (map_data_renderLinesAll_ne_nil L'), ← ih]
    have hA : joinNlL ([] :: ("---" ++ b.1 ++ "---").data :: ("```" ++ b.2.1).data ::
            ((splitNlLines b.2.2).map String.data ++ [("```" : String).data]))
        = '\n' :: (("---" ++ b.1 ++ "---").data
            ++ '\n' :: (("```" ++ b.2.1).data
            ++ '\n' :: (b.2.2.data ++ '\n' :: ("```" : String).data))) := by
      rw [joinNlL_cons _ _ (by simp), joinNlL_cons _ _ (by simp),
        joinNlL_cons _ _ (by simp),
        joinNlL_append _ _ (by rw [map_data_splitNlLines]; exact splitNlL_ne_nil _)
          (by simp),
        map_data_splitNlLines, joinNlL_splitNlL]
      rfl
    rw [hA]
    show (renderBlock b.1 b.2.1 b.2.2 ++ renderBlocks L').data = _
    rw [String.data_append, data_renderBlock]
    simp [List.append_assoc]

theorem noNl_mem {s : String} (h : noNlB s = true) : '\n' ∉ s.data := by
  simpa [noNlB] using h

theorem mk_data_map (ls : List String) :
    (ls.map String.data).map (fun l => (⟨l⟩ : String)) = ls := by
  induction ls with
  | nil => rfl
  | cons s t ih =>
    simp only [List.map_cons]
    exact congrArg (List.cons s) ih

theorem splitNlLines_renderBlocks (L : List (String × String × String))
    (h : ∀ b ∈ L, noNlB b.1 = true ∧ noNlB b.2.1 = true) :
    splitNlLines (renderBlocks L) = renderLinesAll L := by
  have hfree : ∀ part ∈ (renderLinesAll L).map String.data, '\n' ∉ part := by
    intro part hp
    rcases List.mem_map.mp hp with ⟨line, hline, rfl⟩
    simp only [renderLinesAll, List.mem_append, List.mem_flatten] at hline
    rcases hline with ⟨bl, hbl, hmem⟩ | hlast
    · rcases List.mem_map.mp hbl with ⟨b, hb, rfl⟩
      simp only [blockLines, List.mem_cons, List.mem_append,
        List.mem_singleton] at hmem
      rcases hmem with rfl | rfl | rfl | hmem | hlast2
      · simp
      · rw [data_markerLine]
        have hnp := noNl_mem (h b hb).1
        intro hx
        rcases List.mem_append.mp hx with hx | hx
        · rcases List.mem_append.mp hx with hx | hx
          · simp at hx
          · exact hnp hx
        · simp at hx
      · rw [String.data_append]
        have hnl := noNl_mem (h b hb).2
        intro hx
        rcases List.mem_append.mp hx with hx | hx
        · simp at hx
        · exact hnl hx
      · have hmem2 : line.data ∈ (splitNlLines b.2.2).map String.data :=
          List.mem_map_of_mem String.data hmem
        rw [map_data_splitNlLines] at hmem2
        exact mem_splitNlL_noNl _ _ hmem2
      · rcases hlast2 with rfl | hx
        · decide
        · simp at hx
    · have hline2 : line = "" := by simpa using hlast
      simp [hline2]
  show (splitNlL (renderBlocks L).data).map _ = _
  rw [data_renderBlocks,
    splitNlL_joinNlL _ (map_data_renderLinesAll_ne_nil L) hfree, mk_data_map]

theorem parse_of_lines (r : String) (l : String) (rest : List String)
    (hsplit : splitNlLines r = l :: rest) (hsent : ¬(pyStrip l = "```tool_code")) :
    parse_response r = runParser (l :: rest) .scanning [] := by
  unfold parse_response
  rw [hsplit]
  simp [hsent]

theorem parse_of_lines_sent (r : String) (l : String) (rest : List String)
    (hsplit : splitNlLines r = l :: rest)
    (hsent : pyStrip l = "```tool_code") :
    parse_response r = runParser rest .scanning [] := by
  unfold parse_response
  rw [hsplit]
  simp [hsent]

theorem parse1_of_lines (r : String) (l : String) (rest : List String)
    (hsplit : splitNlLines r = l :: rest)
    (hsent : ¬(pyStrip l = "```tool_code")) :
    parse_response1 r = runParser1 (l :: rest) .scanning [] := by
  unfold parse_response1
  rw [hsplit]
  simp [hsent]

theorem parse1_of_lines_sent (r : String) (l : String) (rest : List String)
    (hsplit : splitNlLines r = l :: rest)
    (hsent : pyStrip l = "```tool_code") :
    parse_response1 r = runParser1 rest .scanning [] := by
  unfold parse_response1
  rw [hsplit]
  simp [hsent]

theorem parse_renderBlocks (L : List (String × String × String))
    (h : ∀ b ∈ L, noNlB b.1 = true ∧ noNlB b.2.1 = true ∧
      safeLinesB (splitNlLines b.2.2) = true) :
    parse_response (renderBlocks L) = foldIns [] L := by
  have hsafe : ∀ b ∈ L, safeLinesB (splitNlLines b.2.2) = true :=
    fun b hb => (h b hb).2.2
  cases L with
  | nil => decide
  | cons b L' =>
    have hsplit := splitNlLines_renderBlocks (b :: L')
      (fun x hx => ⟨(h x hx).1, (h x hx).2.1⟩)
    have hshape : renderLinesAll (b :: L')
        = "" :: (("---" ++ b.1 ++ "---") :: ("```" ++ b.2.1) ::
            ((splitNlLines b.2.2 ++ ["```"]) ++ renderLinesAll L')) := by
      simp [renderLinesAll, blockLines, List.append_assoc]
    rw [parse_of_lines _ "" _ (by rw [hsplit, hshape]) (by decide), ← hshape]
    exact run_blocks (b :: L') [] hsafe

theorem any_key_eq_false (d : List (String × String)) (k : String)
    (h : k ∉ d.map Prod.fst) : (d.any fun e => e.1 == k) = false := by
  rw [List.any_eq_false]
  intro e he
  have : e.1 ≠ k := fun hk => h (hk ▸ List.mem_map_of_mem Prod.fst he)
  simpa using this

theorem not_mem_keys_of_any_false (d : List (String × String)) (k : String)
    (h : (d.any fun e => e.1 == k) = false) : k ∉ d.map Prod.fst := by
  rw [List.any_eq_false] at h
  intro hk
  rcases List.mem_map.mp hk with ⟨e, he, rfl⟩
  simpa using h e he

theorem dictInsert_not_mem (d : List (String × String)) (k v : String)
    (h : (d.any fun e => e.1 == k) = false) :
    dictInsert d k v = d ++ [(k, v)] := by
  simp [dictInsert, h]

theorem keys_dictInsert_mem (d : List (String × String)) (k v : String)
    (h : (d.any fun e => e.1 == k) = true) :
    (dictInsert d k v).map Prod.fst = d.map Prod.fst := by
  simp only [dictInsert, h, if_true]
  rw [List.map_map]
  apply List.map_congr_left
  intro e _
  by_cases hc : e.1 == k
  · have : e.1 = k := by simpa using hc
    simp [Function.comp, hc, this]
  · simp [Function.comp, hc]

theorem nodup_keys_dictInsert (d : List (String × String)) (k v : String)
    (h : (d.map Prod.fst).Nodup) :
    ((dictInsert d k v).map Prod.fst).Nodup := by
  by_cases hc : (d.any fun e => e.1 == k) = true
  · rw [keys_dictInsert_mem _ _ _ hc]; exact h
  · have hcf : (d.any fun e => e.1 == k) = false := by
      rwa [Bool.not_eq_true] at hc
    rw [dictInsert_not_mem _ _ _ hcf]
    have hk := not_mem_keys_of_any_false d k hcf
    simp [List.nodup_append, h, hk]

theorem nodup_keys_finalize (st : PState) (d : List (String × String))
    (h : (d.map Prod.fst).Nodup) :
    ((finalizeSt st d).map Prod.fst).Nodup := by
  cases st with
  | scanning => exact h
  | skipFence p => exact nodup_keys_dictInsert _ _ _ h
  | inBlock p acc => exact nodup_keys_dictInsert _ _ _ h

theorem nodup_keys_run (lines : List String) : ∀ (st : PState)
    (d : List (String × String)), (d.map Prod.fst).Nodup →
    ((runParser lines st d).map Prod.fst).Nodup := by
  induction lines with
  | nil => intro st d h; exact nodup_keys_finalize st d h
  | cons l rest ih =>
    intro st d h
    cases st with
    | scanning =>
      simp only [runParser]
      by_cases hm : markerB (pyStrip l) = true
      · rw [if_pos hm]; exact ih _ _ h
      · rw [if_neg hm]; exact ih _ _ h
    | skipFence p => exact ih _ _ h
    | inBlock p acc =>
      simp only [runParser]
      by_cases hf : pyStrip l = "```"
      · rw [if_pos hf]
        by_cases hc : isClose rest = true
        · rw [hc, if_pos rfl]
          exact ih _ _ (nodup_keys_dictInsert _ _ _ h)
        · rw [Bool.not_eq_true] at hc
          rw [hc]
          simpa using ih _ _ h
      · rw [if_neg hf]; exact ih _ _ h

theorem nodup_keys_parse (r : String) :
    ((parse_response r).map Prod.fst).Nodup := by
  unfold parse_response
  cases hsp : splitNlLines r with
  | nil => simp
  | cons l rest =>
    by_cases hs : pyStrip l = "```tool_code"
    · simp only [hs, if_pos rfl]
      exact nodup_keys_run _ _ _ (by simp)
    · simp only [if_neg hs]
      exact nodup_keys_run _ _ _ (by simp)

theorem foldIns_of_nodup (L : List (String × String × String)) : ∀ d,
    (∀ b ∈ L, b.1 ∉ d.map Prod.fst) → (L.map fun b => b.1).Nodup →
    foldIns d L = d ++ L.map (fun b => (b.1, b.2.2)) := by
  induction L with
  | nil => intro d _ _; simp [foldIns]
  | cons b L' ih =>
    intro d hd hnd
    show foldIns (dictInsert d b.1 b.2.2) L' = _
    rw [dictInsert_not_mem _ _ _ (any_key_eq_false d b.1 (hd b (by simp)))]
    rw [List.map_cons, List.nodup_cons] at hnd
    rw [ih (d ++ [(b.1, b.2.2)]) ?keys hnd.2]
    · simp
    · intro x hx
      have h1 : x.1 ∉ d.map Prod.fst := hd x (List.mem_cons_of_mem b hx)
      have h2 : x.1 ≠ b.1 := by
        intro he
        exact hnd.1 (he ▸ List.mem_map_of_mem (fun b => b.1) hx)
      simp [h1, h2]

theorem scan_no_marker (lines : List String) : ∀ d,
    (∀ l ∈ lines, markerB (pyStrip l) = false) →
    runParser lines .scanning d = d := by
  induction lines with
  | nil => intro d _; rfl
  | cons l rest ih =>
    intro d h
    simp only [runParser]
    rw [if_neg (by simp [h l (by simp)])]
    exact ih d (fun x hx => h x (List.mem_cons_of_mem l hx))

theorem scan1_no_marker (lines : List String) : ∀ d,
    (∀ l ∈ lines, markerB (pyStrip l) = false) →
    runParser1 lines .scanning d = d := by
  induction lines with
  | nil => intro d _; rfl
  | cons l rest ih =>
    intro d h
    simp only [runParser1]
    rw [if_neg (by simp [h l (by simp)])]
    exact ih d (fun x hx => h x (List.mem_cons_of_mem l hx))

theorem splitNlLines_sentinel_prepend (r : String) :
    splitNlLines ("```tool_code\n" ++ r) = "```tool_code" :: splitNlLines r := by
  unfold splitNlLines
  rw [String.data_append]
  have e : ("```tool_code\n" : String).data = "```tool_code".data ++ ['\n'] := rfl
  rw [e, List.append_assoc, List.singleton_append,
    splitNlL_append _ _ (by decide), List.map_cons]

/-- C1: while a block is open, a line stripping to the bare fence is a
genuine close if and only if the remaining lines are empty (last line), or
start with a line stripping to a marker (starts and ends with `---`), or
start with a line stripping to empty that is itself last or followed by a
line stripping to a marker; on a genuine close the accumulated lines joined
with newlines are stored under the open path and scanning resumes,
otherwise the fence line is appended verbatim and the block stays open. -/
theorem c1_fence_close_iff (line : String) (rest : List String) (p : String)
    (acc : List String) (d : List (String × String))
    (hfence : pyStrip line = "```") :
    (runParser (line :: rest) (.inBlock p acc) d
      = if isClose rest then
          runParser rest .scanning (dictInsert d p (joinNl acc.reverse))
        else runParser rest (.inBlock p (line :: acc)) d)
    ∧ (isClose rest = true ↔
        rest = [] ∨ ∃ nl t, rest = nl :: t ∧
          ((startsW (pyStrip nl) "---" = true ∧ endsW (pyStrip nl) "---" = true)
            ∨ (pyStrip nl = "" ∧ (t = [] ∨ ∃ m u, t = m :: u ∧
                startsW (pyStrip m) "---" = true
                  ∧ endsW (pyStrip m) "---" = true)))) := by
  constructor
  · simp only [runParser]
    rw [if_pos hfence]
  · cases rest with
    | nil => simp [isClose]
    | cons nl t =>
      simp only [isClose]
      by_cases hm : markerB (pyStrip nl) = true
      · rw [if_pos hm]
        have hm2 : (startsW (pyStrip nl) "---" && endsW (pyStrip nl) "---")
            = true := hm
        have hse := (Bool.and_eq_true _ _).mp hm2
        constructor
        · intro _
          exact Or.inr ⟨nl, t, rfl, Or.inl hse⟩
        · intro _; rfl
      · rw [if_neg hm]
        by_cases he : pyStrip nl = ""
        · rw [if_pos he]
          cases t with
          | nil =>
            constructor
            · intro _
              exact Or.inr ⟨nl, [], rfl, Or.inr ⟨he, Or.inl rfl⟩⟩
            · intro _; rfl
          | cons m u =>
            constructor
            · intro hmm
              exact Or.inr ⟨nl, m :: u, rfl, Or.inr ⟨he, Or.inr
                ⟨m, u, rfl, (Bool.and_eq_true _ _).mp hmm⟩⟩⟩
            · rintro (hnil | ⟨nl', t', heq, hcase⟩)
              · exact absurd hnil (by simp)
              · injection heq with e1 e2
                subst e1; subst e2
                rcases hcase with hse | ⟨_, hrest⟩
                · exact absurd (show markerB (pyStrip nl) = true from
                    (Bool.and_eq_true _ _).mpr hse) hm
                · rcases hrest with hnil2 | ⟨m', u', heq2, h1, h2⟩
                  · exact absurd hnil2 (by simp)
                  · injection heq2 with e3 e4
                    subst e3; subst e4
                    exact (Bool.and_eq_true _ _).mpr ⟨h1, h2⟩
        · rw [if_neg he]
          constructor
          · intro hfalse
            exact absurd hfalse (by simp)
          · rintro (hnil | ⟨nl', t', heq, hcase⟩)
            · exact absurd hnil (by simp)
            · injection heq with e1 e2
              subst e1; subst e2
              rcases hcase with hse | ⟨hee, _⟩
              · exact absurd (show markerB (pyStrip nl) = true from
                  (Bool.and_eq_true _ _).mpr hse) hm
              · exact absurd hee he

/-- Witness for C1 at a concrete input: a fence as the last line of input
closes the block. -/
theorem c1_fence_close_iff_witness :
    runParser ["```"] (.inBlock "a.txt" ["hi"]) []
      = if isClose [] then
          runParser [] .scanning (dictInsert [] "a.txt" (joinNl ["hi"].reverse))
        else runParser [] (.inBlock "a.txt" ("```" :: ["hi"])) [] :=
  (c1_fence_close_iff "```" [] "a.txt" ["hi"] [] (by decide)).1

/-- C2 fails as stated: in the block list `[("a", "", "```\n\n---b---")]`
the embedded fence content line is followed by an empty line (neither a
marker line nor end of input), yet parsing the rendered response does not
return the original mapping — the parser closes the block early at the
embedded fence. -/
theorem c2_counterexample :
    parse_response (renderBlocks [("a", "", "```\n\n---b---")])
        = [("a", ""), ("b", "")]
      ∧ parse_response (renderBlocks [("a", "", "```\n\n---b---")])
        ≠ [("a", "```\n\n---b---")]
      ∧ markerB (pyStrip "") = false :=
  ⟨by decide, by decide, by decide⟩

/-- C2 amended: for every block list whose paths and language tags are
newline-free, whose content lines never satisfy the genuine-close
lookahead within the content (a line stripping to the fence is never
followed by a line stripping to a marker, nor by an empty-stripping line
that is itself followed within the content by a marker-stripping line),
and whose paths are pairwise distinct, rendering per `create_prompt`'s
wire format and parsing returns exactly the original path-to-content
mapping.  A fence line at or next to the end of the content is safe, since
the block's real closing fence follows it in the rendered stream. -/
theorem c2_roundtrip_amended (L : List (String × String × String))
    (hlines : ∀ b ∈ L, noNlB b.1 = true ∧ noNlB b.2.1 = true ∧
      safeLinesB (splitNlLines b.2.2) = true)
    (hkeys : (L.map fun b => b.1).Nodup) :
    parse_response (renderBlocks L) = L.map fun b => (b.1, b.2.2) := by
  rw [parse_renderBlocks L hlines, foldIns_of_nodup L [] (by simp) hkeys]
  simp

/-- Witness for C2 (amended) at a concrete two-block mapping. -/
theorem c2_roundtrip_amended_witness :
    parse_response (renderBlocks [("a.txt", "py", "hello"), ("b.txt", "", "x\ny")])
      = [("a.txt", "hello"), ("b.txt", "x\ny")] := by
  have h := c2_roundtrip_amended
    [("a.txt", "py", "hello"), ("b.txt", "", "x\ny")] (by decide) (by decide)
  exact h.trans (by decide)

/-- C3 fails as stated: the input `-----` contains no Marker Line in the
spec's sense (its only line strips to five characters, fewer than the six
the spec requires), yet `parse_response` returns a nonempty mapping for
it, because the code's marker test has no length requirement and the
five-dash line opens a block with the empty path. -/
theorem c3_counterexample :
    (∀ l ∈ splitNlLines "-----", specMarkerLineB (pyStrip l) = false)
      ∧ parse_response "-----" = [("", "")]
      ∧ parse_response "-----" ≠ [] :=
  ⟨by decide, by decide, by decide⟩

/-- C3 amended: `parse_response` is total by construction in this
embedding (it is a Lean function on all of `String`), the empty string
parses to the empty mapping, and any input none of whose lines passes the
code's marker test (stripped line starts and ends with `---`, with no
minimum length, unlike the spec's Marker Line) parses to the empty
mapping. -/
theorem c3_total_no_marker_empty :
    parse_response "" = []
      ∧ ∀ r : String, (∀ l ∈ splitNlLines r, markerB (pyStrip l) = false) →
        parse_response r = [] := by
  refine ⟨by decide, ?_⟩
  intro r h
  cases hsp : splitNlLines r with
  | nil => unfold parse_response; rw [hsp]
  | cons l rest =>
    have hr : ∀ x ∈ l :: rest, markerB (pyStrip x) = false := hsp ▸ h
    by_cases hs : pyStrip l = "```tool_code"
    · rw [parse_of_lines_sent r l rest hsp hs]
      exact scan_no_marker rest [] (fun x hx => hr x (List.mem_cons_of_mem l hx))
    · rw [parse_of_lines r l rest hsp hs]
      exact scan_no_marker _ [] hr

/-- Witness for C3 at a concrete marker-free input. -/
theorem c3_total_no_marker_empty_witness :
    parse_response "just some\nprose lines" = [] :=
  c3_total_no_marker_empty.2 "just some\nprose lines" (by decide)

/-- C4: exhausting the input while a block is open finalizes the block with
the accumulated lines joined by newlines; a marker line that is the last
line of input opens a block that is finalized with empty content; concrete
instance at the whole-parser level. -/
theorem c4_eof_finalize :
    (∀ (p : String) (acc : List String) (d : List (String × String)),
        runParser [] (.inBlock p acc) d = dictInsert d p (joinNl acc.reverse))
      ∧ (∀ (l : String) (d : List (String × String)),
          markerB (pyStrip l) = true →
          runParser [l] .scanning d = dictInsert d (pyChop (pyStrip l)) "")
      ∧ parse_response "---last.txt---" = [("last.txt", "")] := by
  refine ⟨fun p acc d => rfl, ?_, by decide⟩
  intro l d hm
  simp only [runParser]
  rw [if_pos hm]
  show dictInsert d (pyChop (pyStrip l)) (joinNl []) = _
  rw [show joinNl ([] : List String) = "" from by decide]

/-- Witness for C4 at a concrete input: a marker as the only line. -/
theorem c4_eof_finalize_witness :
    runParser ["---w.txt---"] .scanning [] = [("w.txt", "")] := by
  have h := c4_eof_finalize.2.1 "---w.txt---" [] (by decide)
  exact h.trans (by decide)

/-- C5: the eight-line two-block response parses to exactly the two-entry
mapping `{"a.txt": "hello", "b.txt": "world"}`. -/
theorem c5_two_block_example :
    parse_response "---a.txt---\n```text\nhello\n```\n---b.txt---\n```text\nworld\n```"
      = [("a.txt", "hello"), ("b.txt", "world")] := by decide

/-- C6: the parser's output never has a duplicate path (Python dict keys
are unique), and when two rendered blocks carry the same path the result
is a single entry carrying the second block's content. -/
theorem c6_duplicate_path_last_wins :
    (∀ r : String, ((parse_response r).map Prod.fst).Nodup)
      ∧ ∀ (p lang1 lang2 c1 c2 : String),
          noNlB p = true → noNlB lang1 = true → noNlB lang2 = true →
          safeLinesB (splitNlLines c1) = true →
          safeLinesB (splitNlLines c2) = true →
          parse_response (renderBlocks [(p, lang1, c1), (p, lang2, c2)])
            = [(p, c2)] := by
  refine ⟨nodup_keys_parse, ?_⟩
  intro p lang1 lang2 c1 c2 hp h1 h2 hs1 hs2
  rw [parse_renderBlocks [(p, lang1, c1), (p, lang2, c2)] ?hb]
  case hb =>
    intro b hb
    rcases List.mem_cons.mp hb with rfl | hb2
    · exact ⟨hp, h1, hs1⟩
    · rcases List.mem_cons.mp hb2 with rfl | hb3
      · exact ⟨hp, h2, hs2⟩
      · simp at hb3
  show dictInsert (dictInsert [] p c1) p c2 = [(p, c2)]
  simp [dictInsert]

/-- Witness for C6 at a concrete duplicated path. -/
theorem c6_duplicate_path_last_wins_witness :
    parse_response (renderBlocks [("a", "", "x"), ("a", "", "y")]) = [("a", "y")] :=
  c6_duplicate_path_last_wins.2 "a" "" "" "x" "y"
    (by decide) (by decide) (by decide) (by decide) (by decide)

/-- C7 fails as stated: in the response a, b, a the path `a` is terminated
twice but keeps its first-insertion position (Python dict semantics), so
the key order is `["a", "b"]`, not the `["b", "a"]` the overwrite-position
claim dictates. -/
theorem c7_counterexample :
    parse_response "---a---\n```\nx\n```\n---b---\n```\ny\n```\n---a---\n```\nz\n```"
        = [("a", "z"), ("b", "y")]
      ∧ (parse_response
          "---a---\n```\nx\n```\n---b---\n```\ny\n```\n---a---\n```\nz\n```").map
            Prod.fst ≠ ["b", "a"] :=
  ⟨by decide, by decide⟩

/-- C7 amended: insertion order follows first-terminated order; a later
termination of the same path overwrites the stored content but the key
keeps the position of its first insertion (inserting an existing key
leaves the key order unchanged, inserting a new key appends it), as the
concrete a, b, a response shows. -/
theorem c7_order_amended :
    (∀ (d : List (String × String)) (k v : String),
        (d.any fun e => e.1 == k) = true →
        (dictInsert d k v).map Prod.fst = d.map Prod.fst)
      ∧ (∀ (d : List (String × String)) (k v : String),
          (d.any fun e => e.1 == k) = false →
          dictInsert d k v = d ++ [(k, v)])
      ∧ parse_response "---a---\n```\nx\n```\n---b---\n```\ny\n```\n---a---\n```\nz\n```"
          = [("a", "z"), ("b", "y")] :=
  ⟨keys_dictInsert_mem, dictInsert_not_mem, by decide⟩

/-- Witness for C7 (amended): overwriting key a keeps it in front of b. -/
theorem c7_order_amended_witness :
    (dictInsert [("a", "1"), ("b", "2")] "a" "9").map Prod.fst = ["a", "b"] := by
  have h := c7_order_amended.1 [("a", "1"), ("b", "2")] "a" "9" (by decide)
  exact h.trans (by decide)

/-- C8 fails as stated: the code has no minimum-length check, so the bare
three-character line `---` (stripped length 3 < 6) does open a block, with
the empty path. -/
theorem c8_counterexample :
    parse_response "---" = [("", "")] ∧ parse_response "---" ≠ [] :=
  ⟨by decide, by decide⟩

/-- C8 amended: a line opens a block while scanning exactly when its
stripped form starts with `---` and ends with `---`, with no length
requirement; the path is the stripped line with the first three and last
three characters removed (empty for a stripped length below seven); in
particular the bare `---` opens a block with the empty path. -/
theorem c8_marker_amended :
    (∀ (l : String) (rest : List String) (d : List (String × String)),
        markerB (pyStrip l) = true →
        runParser (l :: rest) .scanning d
          = runParser rest (.skipFence (pyChop (pyStrip l))) d)
      ∧ markerB "---" = true ∧ pyChop "---" = ""
      ∧ parse_response "---" = [("", "")] := by
  refine ⟨?_, by decide, by decide, by decide⟩
  intro l rest d hm
  simp only [runParser]
  rw [if_pos hm]

/-- Witness for C8 (amended): the bare `---` line enters skip-fence state
with the empty path. -/
theorem c8_marker_amended_witness :
    runParser ["---"] .scanning []
      = runParser [] (.skipFence (pyChop (pyStrip "---"))) [] :=
  c8_marker_amended.1 "---" [] [] (by decide)

/-- C9: a response whose first line is the `tool_code` sentinel followed by
a response whose first line strips to a marker line parses identically to
the response without the sentinel line. -/
theorem c9_sentinel_skip (r : String) (l : String) (rest : List String)
    (hsplit : splitNlLines r = l :: rest)
    (hmark : markerB (pyStrip l) = true) :
    parse_response ("```tool_code\n" ++ r) = parse_response r := by
  have hsent : ¬(pyStrip l = "```tool_code") := by
    intro he
    rw [he] at hmark
    exact absurd hmark (by decide)
  rw [parse_of_lines r l rest hsplit hsent,
    parse_of_lines_sent ("```tool_code\n" ++ r) "```tool_code" (splitNlLines r)
      (splitNlLines_sentinel_prepend r) (by decide), hsplit]

/-- Witness for C9 at a concrete sentinel-wrapped block. -/
theorem c9_sentinel_skip_witness :
    parse_response ("```tool_code\n" ++ "---a---\n```\nhi\n```")
      = parse_response "---a---\n```\nhi\n```" :=
  c9_sentinel_skip "---a---\n```\nhi\n```" "---a---" ["```", "hi", "```"]
    (by decide) (by decide)

/-- C10 fails as stated: `ResponseParser1.parse_response` lacks the
`continue` after opening a block, so it also skips the first content line;
on a one-block response with content `x` it returns empty content while
`ResponseParser.parse_response` returns `x`. -/
theorem c10_counterexample :
    parse_response1 "---a---\n```\nx\n```" = [("a", "")]
      ∧ parse_response "---a---\n```\nx\n```" = [("a", "x")]
      ∧ parse_response1 "---a---\n```\nx\n```"
          ≠ parse_response "---a---\n```\nx\n```" :=
  ⟨by decide, by decide, by decide⟩

/-- C10 amended: the two parsers agree on every input none of whose lines
strips to a marker line (both return the empty mapping); in general they
differ, because `ResponseParser1` drops the first content line of each
block. -/
theorem c10_agree_amended (r : String)
    (h : ∀ l ∈ splitNlLines r, markerB (pyStrip l) = false) :
    parse_response1 r = parse_response r := by
  cases hsp : splitNlLines r with
  | nil => unfold parse_response parse_response1; rw [hsp]
  | cons l rest =>
    have hr : ∀ x ∈ l :: rest, markerB (pyStrip x) = false := hsp ▸ h
    by_cases hs : pyStrip l = "```tool_code"
    · rw [parse_of_lines_sent r l rest hsp hs, parse1_of_lines_sent r l rest hsp hs,
        scan_no_marker rest [] (fun x hx => hr x (List.mem_cons_of_mem l hx)),
        scan1_no_marker rest [] (fun x hx => hr x (List.mem_cons_of_mem l hx))]
    · rw [parse_of_lines r l rest hsp hs, parse1_of_lines r l rest hsp hs,
        scan_no_marker _ [] hr, scan1_no_marker _ [] hr]

/-- Witness for C10 (amended) at a concrete marker-free input. -/
theorem c10_agree_amended_witness :
    parse_response1 "plain\ntext" = parse_response "plain\ntext" :=
  c10_agree_amended "plain\ntext" (by decide)

end Commander
